import Mathlib

/-!
Verification development for the solana-scraping repository.

We shallowly embed the resilient paginated API-fetch-and-cache pattern of
the repository: the backoff-retry HTTP invoker (`_make_request` in
src/birdeye/birdeye_utils.py), the paginated collectors
(`get_token_trade_history` in src/birdeye/birdeye_utils.py, `get_pairs` and
`get_historical_prices` in src/moralis/moralis_utils.py), the
multi-resolution OHLCV fetcher and its merge step
(`fetch_multi_resolution_ohlcv` in src/birdeye/fetch_pump_ohlcv.py), the
on-disk caches (`get_token_metadata`, `get_token_security_details`) and the
batch progress ledger (`main` in src/birdeye/fetch_pump_ohlcv.py).

HTTP traffic is modelled as a list of attempt outcomes consumed one per
request; sleeping is modelled by recording the slept durations; files are
modelled as explicit state.
-/

namespace SolanaScraping

/-! ## Backoff-retry HTTP invoker: `BirdeyeAPI._make_request`

One element of `HttpAttempt` describes what the network does for one
`requests.get` call: either the call raises (connection error, timeout),
or it yields a response with a status code, a flag saying whether the body
parses as JSON, and an abstract payload used when it does parse.
-/

inductive HttpAttempt where
  | exn : HttpAttempt
  | response (status : Nat) (parses : Bool) (payload : Nat) : HttpAttempt
deriving Repr, DecidableEq

/-- Result of one `_make_request` call: the returned value (`none` models
Python `None`), the list of durations slept (in order), and the number of
HTTP attempts made. -/
structure InvokeResult where
  result : Option Nat
  sleeps : List Nat
  attempts : Nat
deriving Repr, DecidableEq

/-- Shallow embedding of `BirdeyeAPI._make_request`
(src/birdeye/birdeye_utils.py lines 89-145).  The recursion consumes one
`HttpAttempt` per HTTP request; `retry` and `wait` are the two recursion
arguments of the Python function, `maxRetries` is `self.max_retries`. -/
def makeRequest (maxRetries : Nat) : List HttpAttempt → Nat → Nat → InvokeResult
  | [], _, _ => ⟨none, [], 0⟩
  | .exn :: rest, retry, wait =>
      if retry < maxRetries then
        let t := makeRequest maxRetries rest (retry + 1) (wait * 2)
        ⟨t.result, wait :: t.sleeps, t.attempts + 1⟩
      else ⟨none, [], 1⟩
  | .response status parses payload :: rest, retry, wait =>
      if status = 200 then
        if parses then ⟨some payload, [], 1⟩
        else
          if retry < maxRetries then
            let t := makeRequest maxRetries rest (retry + 1) (wait * 2)
            ⟨t.result, wait :: t.sleeps, t.attempts + 1⟩
          else ⟨none, [], 1⟩
      else if status = 401 then ⟨none, [], 1⟩
      else if status = 429 then
        if retry < maxRetries then
          let waitTime := wait * 3
          let t := makeRequest maxRetries rest (retry + 1) (waitTime * 2)
          ⟨t.result, waitTime :: t.sleeps, t.attempts + 1⟩
        else ⟨none, [], 1⟩
      else
        if retry < maxRetries then
          let t := makeRequest maxRetries rest (retry + 1) (wait * 2)
          ⟨t.result, wait :: t.sleeps, t.attempts + 1⟩
        else ⟨none, [], 1⟩

/-- The transient outcomes of `_make_request`: a raised request, a 200 body
that fails to parse, or any status other than 200, 401 and 429.  These are
exactly the branches that retry with the standard (non-amplified) backoff. -/
def isTransient : HttpAttempt → Bool
  | .exn => true
  | .response status parses _ =>
      if status = 200 then !parses else status ≠ 401 && status ≠ 429

/-! ## Paginated collector: `BirdeyeAPI.get_token_trade_history`

One element of `TradePage` is what one `_make_request` call inside the
pagination loop produces: `invokerFail` is a `None` return (retries
exhausted inside the invoker), `malformed` a JSON value without the
`data.items` shape, and `items` a well-shaped page whose trade records are
abstracted as natural numbers.
-/

inductive TradePage where
  | invokerFail : TradePage
  | malformed : TradePage
  | items (trades : List Nat) : TradePage
deriving Repr, DecidableEq

/-- The Python cap test `if max_total_records and total_fetched >= max_total_records`:
`max_total_records` must be truthy (not `None` and nonzero) and reached. -/
def capReached (maxTotalRecords : Option Nat) (totalFetched : Nat) : Bool :=
  match maxTotalRecords with
  | none => false
  | some m => m ≠ 0 && totalFetched ≥ m

/-- The tail of `get_token_trade_history`: `if all_trades: return df else None`. -/
def finishTrades (allTrades : List Nat) : Option (List Nat) :=
  if allTrades.isEmpty then none else some allTrades

/-- Shallow embedding of the `while True` pagination loop of
`BirdeyeAPI.get_token_trade_history` (src/birdeye/birdeye_utils.py lines
588-670).  Arguments mirror the loop state: the remaining server
responses, `all_trades` and `total_fetched`.  The second component counts
the page requests issued.  An exhausted response list yields the final
conversion directly (the loop is never starved in the scenarios stated
below). -/
def collectTrades (limitPerRequest : Nat) (maxTotalRecords : Option Nat) :
    List TradePage → List Nat → Nat → Option (List Nat) × Nat
  | [], allTrades, _ => (finishTrades allTrades, 0)
  | .invokerFail :: _, allTrades, _ =>
      -- json_response is None: return partial data if any, else None
      (if allTrades.isEmpty then none else some allTrades, 1)
  | .malformed :: _, allTrades, _ =>
      -- unexpected response format: same split as the invoker-failure case
      (if allTrades.isEmpty then none else some allTrades, 1)
  | .items trades :: rest, allTrades, totalFetched =>
      if trades.isEmpty then (finishTrades allTrades, 1)
      else
        let allTrades' := allTrades ++ trades
        let totalFetched' := totalFetched + trades.length
        if capReached maxTotalRecords totalFetched' then
          (finishTrades (allTrades'.take (maxTotalRecords.getD 0)), 1)
        else if trades.length < limitPerRequest then
          (finishTrades allTrades', 1)
        else
          let t := collectTrades limitPerRequest maxTotalRecords rest allTrades' totalFetched'
          (t.1, t.2 + 1)

/-- Entry point of `get_token_trade_history`: empty accumulator, offset 0. -/
def getTokenTradeHistory (limitPerRequest : Nat) (maxTotalRecords : Option Nat)
    (responses : List TradePage) : Option (List Nat) × Nat :=
  collectTrades limitPerRequest maxTotalRecords responses [] 0

/-! ## Moralis collectors: `get_pairs` and `get_historical_prices`

src/moralis/moralis_utils.py.  Both functions run an outer `while True`
pagination loop around an inner `while retry_count <= max_retries` retry
loop.  One element of `MoralisResp` is what one `requests.get` call
produces: a parsed JSON value (a record list plus an optional cursor), a
429 status, a 401 quota rejection, another HTTP error status (which makes
`raise_for_status` raise), or a JSON decode error.
-/

inductive MoralisResp where
  | ok (records : List Nat) (cursor : Option String) : MoralisResp
  | http429 : MoralisResp
  | quota401 : MoralisResp
  | httpOther : MoralisResp
  | jsonError : MoralisResp
deriving Repr, DecidableEq

/-- Observable outcome of running a moralis pagination loop against a
finite response stream: the function returned a value (`none` models a
Python `None` return, `some l` a DataFrame holding `l`), raised
`QuotaExceededException`, or is still looping after issuing the recorded
number of requests when the stream ran out. -/
inductive MoralisOutcome where
  | returned (value : Option (List Nat)) : MoralisOutcome
  | raisedQuota : MoralisOutcome
  | running (requestsIssued : Nat) : MoralisOutcome
deriving Repr, DecidableEq

/-- Python truthiness of the cursor test
`if "cursor" in data and data["cursor"]`. -/
def cursorTruthy : Option String → Bool
  | none => false
  | some c => !c.isEmpty

/-- Shallow embedding of the nested loops of `get_pairs`
(src/moralis/moralis_utils.py lines 170-258).  Each consumed response is
one issued request.  Key control-flow facts of the source, kept verbatim:
every `break` exits only the inner retry loop, and the outer loop is left
only through `if retry_count > max_retries: break` — but `retry_count` is
only ever incremented under `retry_count < max_retries`, so that guard
never fires and every inner `break` re-enters the outer loop (with
`retry_count` reset to 0 and the page parameters rebuilt). -/
def getPairsGo (maxRetries : Nat) :
    List MoralisResp → List Nat → Nat → Nat → MoralisOutcome
  | [], _, _, requests => .running requests
  | .ok records cursor :: rest, allPairs, _, requests =>
      if records.isEmpty then
        -- "No more pairs": break exits the retry loop only; outer loop repeats
        getPairsGo maxRetries rest allPairs 0 (requests + 1)
      else
        let allPairs' := allPairs ++ records
        if cursorTruthy cursor then
          -- cursor adopted, next page
          getPairsGo maxRetries rest allPairs' 0 (requests + 1)
        else
          -- "No more pages": break exits the retry loop only; outer loop repeats
          getPairsGo maxRetries rest allPairs' 0 (requests + 1)
  | .http429 :: rest, allPairs, retryCount, requests =>
      if retryCount < maxRetries then
        getPairsGo maxRetries rest allPairs (retryCount + 1) (requests + 1)
      else
        .returned (if allPairs.isEmpty then some [] else none)
  | .quota401 :: _, _, _, _ => .raisedQuota
  | .httpOther :: rest, allPairs, _, requests =>
      -- RequestException, not 429: break exits the retry loop only
      getPairsGo maxRetries rest allPairs 0 (requests + 1)
  | .jsonError :: rest, allPairs, _, requests =>
      -- json.JSONDecodeError: break exits the retry loop only
      getPairsGo maxRetries rest allPairs 0 (requests + 1)

/-- Entry point of `get_pairs`. -/
def getPairs (maxRetries : Nat) (responses : List MoralisResp) : MoralisOutcome :=
  getPairsGo maxRetries responses [] 0 0

/-- Shallow embedding of the nested loops of `get_historical_prices`
(src/moralis/moralis_utils.py lines 313-445), identical in structure to
`get_pairs` with `all_results` in place of `all_pairs`. -/
def getHistoricalPricesGo (maxRetries : Nat) :
    List MoralisResp → List Nat → Nat → Nat → MoralisOutcome
  | [], _, _, requests => .running requests
  | .ok records cursor :: rest, allResults, _, requests =>
      if records.isEmpty then
        getHistoricalPricesGo maxRetries rest allResults 0 (requests + 1)
      else
        let allResults' := allResults ++ records
        if cursorTruthy cursor then
          getHistoricalPricesGo maxRetries rest allResults' 0 (requests + 1)
        else
          getHistoricalPricesGo maxRetries rest allResults' 0 (requests + 1)
  | .http429 :: rest, allResults, retryCount, requests =>
      if retryCount < maxRetries then
        getHistoricalPricesGo maxRetries rest allResults (retryCount + 1) (requests + 1)
      else
        -- `return pd.DataFrame() if not all_results else None`
        .returned (if allResults.isEmpty then some [] else none)
  | .quota401 :: _, _, _, _ => .raisedQuota
  | .httpOther :: rest, allResults, _, requests =>
      getHistoricalPricesGo maxRetries rest allResults 0 (requests + 1)
  | .jsonError :: rest, allResults, _, requests =>
      getHistoricalPricesGo maxRetries rest allResults 0 (requests + 1)

/-- Entry point of `get_historical_prices`. -/
def getHistoricalPrices (maxRetries : Nat) (responses : List MoralisResp) :
    MoralisOutcome :=
  getHistoricalPricesGo maxRetries responses [] 0 0

/-! ## Multi-resolution OHLCV fetching and merging
(`fetch_multi_resolution_ohlcv` in src/birdeye/fetch_pump_ohlcv.py).

A record is a timestamped value carrying the `interval` tag column the
fetcher assigns with `df['interval'] = ...` before concatenation. -/

structure OhlcvRec where
  ts : Nat
  value : Nat
  interval : String
deriving Repr, DecidableEq

/-- Timestamp comparison used by `sort_values('ts')`. -/
def leTs (a b : OhlcvRec) : Bool := a.ts ≤ b.ts

/-- One concrete realization of `combined_df.sort_values('ts')`, used to
keep the fetcher executable.  pandas runs `sort_values` with the default
`kind='quicksort'`, which is NOT stable: the program only guarantees some
timestamp-sorted permutation of the input, with the relative order of
records sharing a timestamp unspecified.  That faithful nondeterministic
contract is `IsSortByTsOutput` below; this realization is merely one of
its permitted outputs (see `sortByTs_isSortByTsOutput`). -/
def sortByTs (l : List OhlcvRec) : List OhlcvRec := l.mergeSort leTs

/-- The contract of `sort_values('ts')` with the default (unstable)
quicksort: the output is some permutation of the input that is sorted by
timestamp.  Which of the permitted permutations arises — in particular the
relative order of records sharing a timestamp — is not specified by the
program. -/
def IsSortByTsOutput (input out : List OhlcvRec) : Prop :=
  List.Perm out input ∧ out.Pairwise (fun a b => a.ts ≤ b.ts)

/-- `drop_duplicates(subset=['ts'], keep='first')`: scan in order, keep a
record only when its timestamp has not been seen yet. -/
def dedupByTs : List Nat → List OhlcvRec → List OhlcvRec
  | _, [] => []
  | seen, r :: rest =>
      if r.ts ∈ seen then dedupByTs seen rest
      else r :: dedupByTs (r.ts :: seen) rest

/-- Executable rendering of the merge step of `fetch_multi_resolution_ohlcv`
(lines 176-187): concatenate the per-phase frames, sort by timestamp, drop
exact-timestamp duplicates keeping the first occurrence in post-sort order.
Because the sort is only specified up to `IsSortByTsOutput`, properties
that depend on which equal-timestamp permutation the sort picks must be
proved against that contract, not against this realization. -/
def mergeSeries (allDfs : List (List OhlcvRec)) : List OhlcvRec :=
  dedupByTs [] (sortByTs allDfs.flatten)

/-- One OHLCV request issued by the fetcher: its window and interval. -/
structure FetchReq where
  startTs : Nat
  endTs : Nat
  interval : String
deriving Repr, DecidableEq

/-- The mutable state of `fetch_multi_resolution_ohlcv`: `all_dfs`,
`phases_attempted`, `phases_succeeded`, plus the list of issued requests
(ghost instrumentation for counting). -/
structure PhaseState where
  allDfs : List (List OhlcvRec)
  attempted : Nat
  succeeded : Nat
  requests : List FetchReq
deriving Repr, DecidableEq

/-- One `safe_api_call` attempt inside `fetch_multi_resolution_ohlcv`:
bump `phases_attempted`, issue the request, and on a non-`None` non-empty
frame tag it with the interval, append it and bump `phases_succeeded`. -/
def attemptPhase (call : Nat → Nat → String → Option (List OhlcvRec))
    (startTs endTs : Nat) (interval : String) (st : PhaseState) : PhaseState :=
  let st' : PhaseState :=
    { st with
      attempted := st.attempted + 1
      requests := st.requests ++ [⟨startTs, endTs, interval⟩] }
  match call startTs endTs interval with
  | none => st'
  | some df =>
      if df.isEmpty then st'
      else
        { st' with
          allDfs := st'.allDfs ++ [df.map fun r => { r with interval := interval }]
          succeeded := st'.succeeded + 1 }

/-- The status string `f"{phases_succeeded}/{phases_attempted} phases"`. -/
def phaseStatus (succeeded attempted : Nat) : String :=
  toString succeeded ++ "/" ++ toString attempted ++ " phases"

/-- Result of `fetch_multi_resolution_ohlcv`: the merged frame (or `none`),
the status string, and the requests issued. -/
structure MultiResResult where
  result : Option (List OhlcvRec)
  status : String
  requests : List FetchReq
deriving Repr, DecidableEq

/-- Shallow embedding of `fetch_multi_resolution_ohlcv`
(src/birdeye/fetch_pump_ohlcv.py lines 74-187).  `call` abstracts
`safe_api_call` (returning `none` both for a `None` frame and for a caught
exception); `now` is the timestamp sampled once at entry. -/
def fetchMultiResolutionOhlcv (call : Nat → Nat → String → Option (List OhlcvRec))
    (creationTime now : Nat) : MultiResResult :=
  let hourSecs := 3600
  let daySecs := 24 * hourSecs
  let end24h := creationTime + daySecs
  let end8d := creationTime + 8 * daySecs
  let st0 : PhaseState := ⟨[], 0, 0, []⟩
  -- Phase 1: first 24 hours at 1-minute intervals, split at the 12 hour mark
  let st1 :=
    if now > creationTime then
      let phase1Mid := creationTime + 12 * hourSecs
      let phase1End := min end24h now
      let stA := attemptPhase call creationTime (min phase1Mid now) "1m" st0
      if now > phase1Mid then attemptPhase call phase1Mid phase1End "1m" stA
      else stA
    else st0
  -- Phase 2: hours 24-192 at 1-hour intervals
  let st2 :=
    if now > end24h then attemptPhase call end24h (min end8d now) "1H" st1
    else st1
  -- Phase 3: after day 8 at 12-hour intervals
  let st3 :=
    if now > end8d then attemptPhase call end8d now "12H" st2
    else st2
  { result :=
      if st3.allDfs.isEmpty then none
      else some (mergeSeries st3.allDfs)
    status := phaseStatus st3.succeeded st3.attempted
    requests := st3.requests }

/-! ## Incremental cache: `get_token_metadata` and `get_token_security_details`
(src/birdeye/birdeye_utils.py).

The persisted artifacts are modelled as explicit state: a per-address
metadata JSON file map and the rows of `data/security_details.csv`.
The network is abstracted by `server`: `none` is a failed `_make_request`,
`some none` a JSON response without a `data` field, `some (some d)` a
response whose `data` field is `d` (documents abstracted as naturals). -/

structure BirdeyeFiles where
  metadataFiles : String → Option Nat
  securityRows : List (String × Nat)

/-- Result of one cached lookup: returned value, resulting file state, and
the number of network calls issued. -/
structure CacheLookup where
  value : Option Nat
  files : BirdeyeFiles
  networkCalls : Nat

/-- Shallow embedding of `BirdeyeAPI.get_token_metadata`
(src/birdeye/birdeye_utils.py lines 277-327): return the cached file when
present and no refresh is forced; otherwise fetch, and on success write the
`data` portion to the cache file and return it. -/
def getTokenMetadata (forceRefresh : Bool) (address : String)
    (server : Option (Option Nat)) (st : BirdeyeFiles) : CacheLookup :=
  if !forceRefresh && (st.metadataFiles address).isSome then
    ⟨st.metadataFiles address, st, 0⟩
  else
    match server with
    | none => ⟨none, st, 1⟩
    | some none => ⟨none, st, 1⟩
    | some (some d) =>
        ⟨some d,
         { st with
           metadataFiles := fun a =>
             if a = address then some d else st.metadataFiles a },
         1⟩

/-- Shallow embedding of `BirdeyeAPI.get_token_security_details`
(src/birdeye/birdeye_utils.py lines 417-490): return the first CSV row for
the address when present and no refresh is forced; otherwise fetch, and on
success append the row (or update it when the address raced in) and return
the data. -/
def getTokenSecurityDetails (forceRefresh : Bool) (address : String)
    (server : Option (Option Nat)) (st : BirdeyeFiles) : CacheLookup :=
  match
    (if forceRefresh then none
     else (st.securityRows.filter fun row => row.1 = address).head?) with
  | some row => ⟨some row.2, st, 0⟩
  | none =>
      match server with
      | none => ⟨none, st, 1⟩
      | some none => ⟨none, st, 1⟩
      | some (some d) =>
          let rows :=
            if st.securityRows.any fun row => row.1 = address then
              st.securityRows.map fun row =>
                if row.1 = address then (address, d) else row
            else st.securityRows ++ [(address, d)]
          ⟨some d, { st with securityRows := rows }, 1⟩

/-! ## Progress ledger and batch resume
(`main` in src/birdeye/fetch_pump_ohlcv.py, lines 270-318). -/

structure ProgressLedger where
  completed : List String
  failed : List String
  skipped : List String
deriving Repr, DecidableEq

/-- `--retry-failed` handling: `progress["failed"] = []` before processing. -/
def applyRetryFailed (retryFailed : Bool) (p : ProgressLedger) : ProgressLedger :=
  if retryFailed then { p with failed := [] } else p

/-- `skip_set`: completed, plus failed unless a retry pass was requested,
plus skipped. -/
def skipSetOf (retryFailed : Bool) (p : ProgressLedger) : List String :=
  p.completed ++ (if retryFailed then [] else p.failed) ++ p.skipped

/-- The addresses the batch loop processes against the network: those whose
OHLCV output file does not already exist and that are not in `skip_set`
(both checks `continue` past the address without any network call). -/
def processedAddresses (addresses : List String) (p : ProgressLedger)
    (retryFailed : Bool) (outputExists : String → Bool) : List String :=
  let p' := applyRetryFailed retryFailed p
  let sk := skipSetOf retryFailed p'
  addresses.filter fun a => !outputExists a && !sk.contains a

/-! ## Lemmas about the invoker -/

theorem range_map_pow (wait n : Nat) :
    ((List.range (n + 1)).map fun i => wait * 2 ^ i) =
      wait :: ((List.range n).map fun i => wait * 2 * 2 ^ i) := by
  rw [List.range_succ_eq_map, List.map_cons, List.map_map]
  refine congrArg₂ _ (by simp) ?_
  refine List.map_congr_left fun i _ => ?_
  simp [Function.comp, pow_succ]
  ring

/-- A transient attempt with retries remaining: sleep `wait`, recurse with
doubled wait. -/
theorem makeRequest_transient_step (R retry wait : Nat) (o : HttpAttempt)
    (rest : List HttpAttempt) (ho : isTransient o = true) (hr : retry < R) :
    makeRequest R (o :: rest) retry wait =
      { result := (makeRequest R rest (retry + 1) (wait * 2)).result
        sleeps := wait :: (makeRequest R rest (retry + 1) (wait * 2)).sleeps
        attempts := (makeRequest R rest (retry + 1) (wait * 2)).attempts + 1 } := by
  cases o with
  | exn => simp [makeRequest, hr]
  | response status parses payload =>
      by_cases h200 : status = 200
      · subst h200
        have hp : parses = false := by simpa [isTransient] using ho
        simp [makeRequest, hp, hr]
      · have hcodes : status ≠ 401 ∧ status ≠ 429 := by
          simpa [isTransient, h200] using ho
        simp [makeRequest, h200, hcodes.1, hcodes.2, hr]

/-- A transient attempt with retries exhausted: return `None` immediately. -/
theorem makeRequest_transient_exhausted (R retry wait : Nat) (o : HttpAttempt)
    (rest : List HttpAttempt) (ho : isTransient o = true) (hr : ¬retry < R) :
    makeRequest R (o :: rest) retry wait = ⟨none, [], 1⟩ := by
  cases o with
  | exn => simp [makeRequest, hr]
  | response status parses payload =>
      by_cases h200 : status = 200
      · subst h200
        have hp : parses = false := by simpa [isTransient] using ho
        simp [makeRequest, hp, hr]
      · have hcodes : status ≠ 401 ∧ status ≠ 429 := by
          simpa [isTransient, h200] using ho
        simp [makeRequest, h200, hcodes.1, hcodes.2, hr]

/-- Running `_make_request` through a block of transient attempts doubles
the wait each time, sleeping the current wait before every retry. -/
theorem makeRequest_transient_preRun (R : Nat) (fs : List HttpAttempt) :
    ∀ (rest : List HttpAttempt) (retry wait : Nat),
      (∀ o ∈ fs, isTransient o = true) → retry + fs.length ≤ R →
      makeRequest R (fs ++ rest) retry wait =
        { result := (makeRequest R rest (retry + fs.length) (wait * 2 ^ fs.length)).result
          sleeps := ((List.range fs.length).map fun i => wait * 2 ^ i) ++
            (makeRequest R rest (retry + fs.length) (wait * 2 ^ fs.length)).sleeps
          attempts := (makeRequest R rest (retry + fs.length)
            (wait * 2 ^ fs.length)).attempts + fs.length } := by
  induction fs with
  | nil => intro rest retry wait _ _; simp
  | cons o fs ih =>
      intro rest retry wait h hlen
      have ho : isTransient o = true := h o (List.mem_cons_self o fs)
      have hfs : ∀ x ∈ fs, isTransient x = true :=
        fun x hx => h x (List.mem_cons_of_mem o hx)
      have hr : retry < R := by
        simp only [List.length_cons] at hlen; omega
      have hlen' : (retry + 1) + fs.length ≤ R := by
        simp only [List.length_cons] at hlen; omega
      rw [List.cons_append, makeRequest_transient_step R retry wait o _ ho hr,
        ih rest (retry + 1) (wait * 2) hfs hlen']
      simp only [List.length_cons]
      have e1 : retry + (fs.length + 1) = retry + 1 + fs.length := by omega
      have e2 : wait * 2 ^ (fs.length + 1) = wait * 2 * 2 ^ fs.length := by ring
      rw [e1, e2, range_map_pow, List.cons_append]
      rw [InvokeResult.mk.injEq]
      exact ⟨rfl, rfl, by omega⟩

/-- A 200 response with a parseable body returns its payload at once. -/
theorem makeRequest_success (R retry wait p : Nat) (rest : List HttpAttempt) :
    makeRequest R (.response 200 true p :: rest) retry wait = ⟨some p, [], 1⟩ := by
  simp [makeRequest]

/-- A 429 response with retries remaining: sleep three times the wait, then
recurse with the inflated value doubled. -/
theorem makeRequest_429_step (R retry W p : Nat) (b : Bool)
    (rest : List HttpAttempt) (hr : retry < R) :
    makeRequest R (.response 429 b p :: rest) retry W =
      { result := (makeRequest R rest (retry + 1) (W * 3 * 2)).result
        sleeps := W * 3 :: (makeRequest R rest (retry + 1) (W * 3 * 2)).sleeps
        attempts := (makeRequest R rest (retry + 1) (W * 3 * 2)).attempts + 1 } := by
  simp [makeRequest, hr]

/-! ## Claim theorems for the invoker -/

/-- C5: a response with HTTP status 401 makes the invoker return no result
after exactly one attempt and no backoff sleep, for every maximum retry
count, retry counter, wait value, response body and continuation of the
traffic. -/
theorem claim_C5_unauthorized_never_retried (R retry W p : Nat) (b : Bool)
    (rest : List HttpAttempt) :
    makeRequest R (.response 401 b p :: rest) retry W = ⟨none, [], 1⟩ := by
  simp [makeRequest]

/-- C3: while retries remain, a 429 response is never a permanent failure:
the invoker sleeps three times the current wait and recurses with that
inflated value doubled; consequently a 429 followed by generic transient
failures and then a success sleeps 3W, 6W, 12W, ... and returns the
payload. -/
theorem claim_C3_rate_limit_amplified_backoff :
    (∀ (R retry W p : Nat) (b : Bool) (rest : List HttpAttempt), retry < R →
      makeRequest R (.response 429 b p :: rest) retry W =
        { result := (makeRequest R rest (retry + 1) (W * 3 * 2)).result
          sleeps := W * 3 :: (makeRequest R rest (retry + 1) (W * 3 * 2)).sleeps
          attempts := (makeRequest R rest (retry + 1) (W * 3 * 2)).attempts + 1 }) ∧
    (∀ (R W k p q : Nat) (b : Bool) (fs rest : List HttpAttempt),
      (∀ o ∈ fs, isTransient o = true) → fs.length = k → k < R →
      makeRequest R (.response 429 b p :: (fs ++ .response 200 true q :: rest)) 0 W =
        ⟨some q, W * 3 :: ((List.range k).map fun i => W * 3 * 2 * 2 ^ i), k + 2⟩) := by
  constructor
  · intro R retry W p b rest hr
    exact makeRequest_429_step R retry W p b rest hr
  · intro R W k p q b fs rest hfs hk hkR
    have h0 : 0 < R := by omega
    have h1 : (0 + 1) + fs.length ≤ R := by omega
    rw [makeRequest_429_step R 0 W p b _ h0,
      makeRequest_transient_preRun R fs (.response 200 true q :: rest)
        (0 + 1) (W * 3 * 2) hfs h1,
      makeRequest_success]
    subst hk
    simp
    omega

/-- C6: when the first k < R attempts are transient failures (a raised
request, an unparseable 200 body, or a status other than 200, 401 and 429)
and the next attempt succeeds, the invoker returns the payload after k + 1
attempts with sleeps W, 2W, ..., W * 2 ^ (k-1); when all R + 1 attempts are
transient, it returns no result. -/
theorem claim_C6_transient_retries_then_success_or_exhaustion :
    (∀ (R W k p : Nat) (fs rest : List HttpAttempt),
      (∀ o ∈ fs, isTransient o = true) → fs.length = k → k < R →
      makeRequest R (fs ++ .response 200 true p :: rest) 0 W =
        ⟨some p, (List.range k).map fun i => W * 2 ^ i, k + 1⟩) ∧
    (∀ (R W : Nat) (fs : List HttpAttempt) (o : HttpAttempt),
      (∀ x ∈ fs, isTransient x = true) → isTransient o = true → fs.length = R →
      makeRequest R (fs ++ [o]) 0 W =
        ⟨none, (List.range R).map fun i => W * 2 ^ i, R + 1⟩) := by
  constructor
  · intro R W k p fs rest hfs hk hkR
    rw [makeRequest_transient_preRun R fs _ 0 W hfs (by omega),
      makeRequest_success]
    subst hk
    simp
    omega
  · intro R W fs o hfs ho hR
    rw [makeRequest_transient_preRun R fs [o] 0 W hfs (by omega),
      makeRequest_transient_exhausted R (0 + fs.length) (W * 2 ^ fs.length) o []
        ho (by omega)]
    subst hR
    simp
    omega

/-- Witness for C3: traffic 429, connection error, success with budget
R = 2 and W = 5 sleeps 15 then 30 and returns the payload. -/
theorem claim_C3_rate_limit_amplified_backoff_witness :
    makeRequest 2 [.response 429 true 7, .exn, .response 200 true 9] 0 5 =
      ⟨some 9, [15, 30], 3⟩ := by
  have h := claim_C3_rate_limit_amplified_backoff.2 2 5 1 7 9 true [.exn] []
    (by intro o ho; simp at ho; subst ho; rfl) rfl (by omega)
  simpa using h

/-- Witness for C6: one 503 then success with budget R = 2 and W = 5 sleeps
5 and returns the payload after two attempts. -/
theorem claim_C6_transient_retries_then_success_or_exhaustion_witness :
    makeRequest 2 [.response 503 true 0, .response 200 true 7] 0 5 =
      ⟨some 7, [5], 2⟩ := by
  have h := claim_C6_transient_retries_then_success_or_exhaustion.1 2 5 1 7
    [.response 503 true 0] []
    (by intro o ho; simp at ho; subst ho; rfl) rfl (by omega)
  simpa using h

/-! ## Lemmas and claim theorems for the paginated collectors -/

/-- The cap test with value zero never fires, exactly like the test with no
cap: both sides of the Python conjunction are falsy. -/
theorem capReached_zero (total : Nat) :
    capReached (some 0) total = capReached none total := by
  simp [capReached]

/-- The whole trade-history loop is insensitive to replacing a zero cap by
no cap. -/
theorem collectTrades_zero_cap (limit : Nat) :
    ∀ (resps : List TradePage) (acc : List Nat) (total : Nat),
      collectTrades limit (some 0) resps acc total =
        collectTrades limit none resps acc total
  | [], _, _ => rfl
  | .invokerFail :: _, _, _ => rfl
  | .malformed :: _, _, _ => rfl
  | .items trades :: rest, acc, total => by
      by_cases he : trades.isEmpty
      · simp [collectTrades, he]
      · simp only [collectTrades, he, Bool.false_eq_true, if_false, capReached_zero,
          collectTrades_zero_cap limit rest (acc ++ trades) (total + trades.length)]
        rfl

/-- In the moralis `get_pairs` loop, a response stream of final pages —
nonempty pairs, no cursor token — leaves the loop running after every one
of its elements has been consumed, whatever the accumulator and request
counter. -/
theorem getPairsGo_no_cursor_runs_forever (maxRetries : Nat) :
    ∀ (n : Nat) (acc : List Nat) (reqs : Nat),
      getPairsGo maxRetries (List.replicate n (.ok [42] none)) acc 0 reqs =
        .running (reqs + n)
  | 0, _, reqs => by simp [getPairsGo]
  | n + 1, acc, reqs => by
      rw [List.replicate_succ]
      simp only [getPairsGo, List.isEmpty_cons, cursorTruthy, Bool.false_eq_true,
        if_false]
      rw [getPairsGo_no_cursor_runs_forever maxRetries n (acc ++ [42]) (reqs + 1)]
      congr 1
      omega

/-- C1: in the birdeye trade-history collector, a page of zero records, and
a page with fewer records than the page size, each end pagination at once —
the result is fixed after that single request, whatever responses would
follow.  In the moralis `get_pairs` collector however the explicit
"no cursor" signal does not end pagination: against a server that always
answers with a final page (nonempty record list, no cursor token) the loop
is still running after consuming n responses, having issued n page
requests, for every n — the `break` statements leave only the inner retry
loop and the outer loop can never exit, contradicting the claimed
invariant. -/
theorem claim_C1_pagination_termination :
    (∀ (limit : Nat) (cap : Option Nat) (rest : List TradePage)
        (acc : List Nat) (total : Nat),
      collectTrades limit cap (.items [] :: rest) acc total =
        (finishTrades acc, 1)) ∧
    (∀ (limit : Nat) (cap : Option Nat) (rest : List TradePage)
        (acc trades : List Nat) (total : Nat),
      trades ≠ [] → trades.length < limit →
      capReached cap (total + trades.length) = false →
      collectTrades limit cap (.items trades :: rest) acc total =
        (finishTrades (acc ++ trades), 1)) ∧
    (∀ (maxRetries n : Nat),
      getPairs maxRetries (List.replicate n (.ok [42] none)) = .running n) := by
  refine ⟨?_, ?_, ?_⟩
  · intro limit cap rest acc total
    simp [collectTrades]
  · intro limit cap rest acc trades total hne hshort hcap
    have he : trades.isEmpty = false := by
      simpa [List.isEmpty_iff] using hne
    simp [collectTrades, he, hcap, hshort]
  · intro maxRetries n
    simpa [getPairs] using getPairsGo_no_cursor_runs_forever maxRetries n [] 0

/-- Witness for C1: a three-record page against page size 100 ends the
collection at once with those records. -/
theorem claim_C1_pagination_termination_witness :
    collectTrades 100 none [.items [1, 2, 3], .items [9, 9, 9]] [] 0 =
      (some [1, 2, 3], 1) := by
  have h := claim_C1_pagination_termination.2.1 100 none [.items [9, 9, 9]]
    [] [1, 2, 3] 0 (by decide) (by decide) (by decide)
  simpa [finishTrades] using h

/-- C2: when the invoker returns no result for the current page, the
birdeye trade-history collector returns every record gathered so far when
there are any, and a total failure (`none`) otherwise.  The moralis
`get_historical_prices` collector however discards gathered records on
retry exhaustion: after one successful one-record page, exhausting the 429
retries makes it return `None`, losing the accumulated record. -/
theorem claim_C2_invoker_failure_partial_results :
    (∀ (limit : Nat) (cap : Option Nat) (rest : List TradePage)
        (acc : List Nat) (total : Nat), acc ≠ [] →
      collectTrades limit cap (.invokerFail :: rest) acc total =
        (some acc, 1)) ∧
    (∀ (limit : Nat) (cap : Option Nat) (rest : List TradePage) (total : Nat),
      collectTrades limit cap (.invokerFail :: rest) [] total = (none, 1)) ∧
    (getHistoricalPrices 1 [.ok [7] (some "c"), .http429, .http429] =
      .returned none) := by
  refine ⟨?_, ?_, ?_⟩
  · intro limit cap rest acc total hne
    have he : acc.isEmpty = false := by simpa [List.isEmpty_iff] using hne
    simp [collectTrades, he]
  · intro limit cap rest total
    simp [collectTrades]
  · rfl

/-- Witness for C2: two already-gathered records survive an invoker
failure. -/
theorem claim_C2_invoker_failure_partial_results_witness :
    collectTrades 100 none [.invokerFail, .items [5]] [1, 2] 2 =
      (some [1, 2], 1) := by
  exact claim_C2_invoker_failure_partial_results.1 100 none [.items [5]]
    [1, 2] 2 (by decide)

/-- C10: a zero record cap is the same as no cap at all — the collector
ignores it entirely — while a strictly positive cap that the running total
reaches stops the collection and truncates the result to exactly the cap. -/
theorem claim_C10_zero_cap_means_unlimited :
    (∀ (limit : Nat) (resps : List TradePage),
      getTokenTradeHistory limit (some 0) resps =
        getTokenTradeHistory limit none resps) ∧
    (∀ (limit m : Nat) (rest : List TradePage) (acc trades : List Nat)
        (total : Nat),
      m ≠ 0 → trades ≠ [] → total = acc.length → m ≤ total + trades.length →
      collectTrades limit (some m) (.items trades :: rest) acc total =
        (some ((acc ++ trades).take m), 1) ∧
        ((acc ++ trades).take m).length = m) := by
  constructor
  · intro limit resps
    exact collectTrades_zero_cap limit resps [] 0
  · intro limit m rest acc trades total hm hne htot hreach
    have he : trades.isEmpty = false := by simpa [List.isEmpty_iff] using hne
    have hcap : capReached (some m) (total + trades.length) = true := by
      simp [capReached, hm, hreach]
    have hlen : ((acc ++ trades).take m).length = m := by
      simp [List.length_take]
      omega
    have hfin : finishTrades ((acc ++ trades).take m) =
        some ((acc ++ trades).take m) := by
      have hne' : ((acc ++ trades).take m).isEmpty = false := by
        simp only [List.isEmpty_eq_false, ne_eq, ← List.length_eq_zero]
        omega
      simp [finishTrades, hne']
    refine ⟨?_, hlen⟩
    simp [collectTrades, he, hcap, hfin]

/-- Witness for C10: cap 3 falling inside the second two-record page stops
after two requests with exactly three records. -/
theorem claim_C10_zero_cap_means_unlimited_witness :
    collectTrades 2 (some 3) [.items [3, 4], .items [5, 6]] [1, 2] 2 =
      (some [1, 2, 3], 1) ∧ (getTokenTradeHistory 2 (some 0)
        [.items [1, 2], .items [3]] = getTokenTradeHistory 2 none
        [.items [1, 2], .items [3]]) := by
  constructor
  · have h := (claim_C10_zero_cap_means_unlimited.2 2 3 [.items [5, 6]]
      [1, 2] [3, 4] 2 (by decide) (by decide) (by decide) (by decide)).1
    simpa using h
  · exact claim_C10_zero_cap_means_unlimited.1 2 [.items [1, 2], .items [3]]

/-! ## Claim theorems for the incremental cache and the progress ledger -/

/-- C7: a lookup for an address whose artifact is already cached — a
metadata file for the metadata lookup, a CSV row for the security lookup —
with the force-refresh flag not set issues zero network calls, returns the
cached value, and leaves the persisted state unchanged; re-running the
lookup therefore returns the same value and state again (idempotence). -/
theorem claim_C7_cached_lookup_idempotent :
    (∀ (address : String) (server : Option (Option Nat)) (st : BirdeyeFiles)
        (d : Nat),
      st.metadataFiles address = some d →
      getTokenMetadata false address server st = ⟨some d, st, 0⟩) ∧
    (∀ (address : String) (server : Option (Option Nat)) (st : BirdeyeFiles)
        (row : String × Nat),
      (st.securityRows.filter fun r => r.1 = address).head? = some row →
      getTokenSecurityDetails false address server st = ⟨some row.2, st, 0⟩) := by
  constructor
  · intro address server st d h
    simp [getTokenMetadata, h]
  · intro address server st row h
    simp [getTokenSecurityDetails, h]

/-- Witness for C7: with a cached metadata file holding 5 and a cached
security row holding 9, both lookups return the cached values with zero
network calls and untouched state. -/
theorem claim_C7_cached_lookup_idempotent_witness :
    (getTokenMetadata false "tok"
        (some (some 77))
        ⟨fun a => if a = "tok" then some 5 else none, [("tok", 9)]⟩ =
      ⟨some 5, ⟨fun a => if a = "tok" then some 5 else none, [("tok", 9)]⟩, 0⟩) ∧
    (getTokenSecurityDetails false "tok"
        (some (some 77))
        ⟨fun a => if a = "tok" then some 5 else none, [("tok", 9)]⟩ =
      ⟨some 9, ⟨fun a => if a = "tok" then some 5 else none, [("tok", 9)]⟩, 0⟩) := by
  constructor
  · exact claim_C7_cached_lookup_idempotent.1 "tok" (some (some 77))
      ⟨fun a => if a = "tok" then some 5 else none, [("tok", 9)]⟩ 5 (by simp)
  · exact claim_C7_cached_lookup_idempotent.2 "tok" (some (some 77))
      ⟨fun a => if a = "tok" then some 5 else none, [("tok", 9)]⟩ ("tok", 9)
      (by simp)

/-- C8: on resume, an address recorded as completed or skipped is never
among the processed addresses; an address recorded as failed is processed
only when a retry pass is requested; a retry pass clears the failed set
before processing begins; and under a retry pass a failed address that is
listed, has no existing output file and is not otherwise excluded is
processed. -/
theorem claim_C8_resume_processing :
    (∀ (addresses : List String) (p : ProgressLedger) (retryFailed : Bool)
        (outputExists : String → Bool) (a : String),
      a ∈ p.completed ∨ a ∈ p.skipped →
      a ∉ processedAddresses addresses p retryFailed outputExists) ∧
    (∀ (addresses : List String) (p : ProgressLedger)
        (outputExists : String → Bool) (a : String),
      a ∈ p.failed →
      a ∉ processedAddresses addresses p false outputExists) ∧
    (∀ (p : ProgressLedger), (applyRetryFailed true p).failed = []) ∧
    (∀ (addresses : List String) (p : ProgressLedger)
        (outputExists : String → Bool) (a : String),
      a ∈ addresses → outputExists a = false →
      a ∉ p.completed → a ∉ p.skipped →
      a ∈ processedAddresses addresses p true outputExists) := by
  refine ⟨?_, ?_, ?_, ?_⟩
  · intro addresses p retryFailed outputExists a ha hmem
    rw [processedAddresses, List.mem_filter] at hmem
    have hsk : a ∈ skipSetOf retryFailed (applyRetryFailed retryFailed p) := by
      cases retryFailed <;>
        simp [skipSetOf, applyRetryFailed, List.mem_append] <;> tauto
    simp [hsk] at hmem
  · intro addresses p outputExists a ha hmem
    rw [processedAddresses, List.mem_filter] at hmem
    have hsk : a ∈ skipSetOf false (applyRetryFailed false p) := by
      simp [skipSetOf, applyRetryFailed, List.mem_append, ha]
    simp [hsk] at hmem
  · intro p
    simp [applyRetryFailed]
  · intro addresses p outputExists a haddr hout hc hs
    rw [processedAddresses, List.mem_filter]
    refine ⟨haddr, ?_⟩
    have hsk : a ∉ skipSetOf true (applyRetryFailed true p) := by
      simp [skipSetOf, applyRetryFailed, List.mem_append, hc, hs]
    simp [hout, hsk]

/-- Witness for C8: in a batch of five addresses with the third pre-marked
completed, the third is not processed while the others are. -/
theorem claim_C8_resume_processing_witness :
    "a3" ∉ processedAddresses ["a1", "a2", "a3", "a4", "a5"]
        ⟨["a3"], [], []⟩ false (fun _ => false) ∧
    processedAddresses ["a1", "a2", "a3", "a4", "a5"]
        ⟨["a3"], [], []⟩ false (fun _ => false) = ["a1", "a2", "a4", "a5"] := by
  constructor
  · exact claim_C8_resume_processing.1 ["a1", "a2", "a3", "a4", "a5"]
      ⟨["a3"], [], []⟩ false (fun _ => false) "a3" (Or.inl (by simp))
  · rfl

/-! ## Lemmas about the merge step -/

theorem leTs_trans (a b c : OhlcvRec) (hab : leTs a b) (hbc : leTs b c) :
    leTs a c = true := by
  simp only [leTs, decide_eq_true_eq] at *
  omega

theorem leTs_total (a b : OhlcvRec) : leTs a b || leTs b a := by
  simp only [leTs]
  by_cases h : a.ts ≤ b.ts
  · simp [h]
  · simp [h]
    omega

/-- Every element of the deduplicated list comes from the input, with a
timestamp outside the seen set. -/
theorem dedupByTs_mem : ∀ (l : List OhlcvRec) (seen : List Nat)
    (x : OhlcvRec), x ∈ dedupByTs seen l → x ∈ l ∧ x.ts ∉ seen
  | [], _, _, hx => by simp [dedupByTs] at hx
  | r :: rest, seen, x, hx => by
      by_cases hr : r.ts ∈ seen
      · rw [dedupByTs, if_pos hr] at hx
        have := dedupByTs_mem rest seen x hx
        exact ⟨List.mem_cons_of_mem r this.1, this.2⟩
      · rw [dedupByTs, if_neg hr] at hx
        rcases List.mem_cons.mp hx with hx | hx
        · subst hx
          exact ⟨List.mem_cons_self x rest, hr⟩
        · have := dedupByTs_mem rest (r.ts :: seen) x hx
          refine ⟨List.mem_cons_of_mem r this.1, fun hs => this.2 ?_⟩
          exact List.mem_cons_of_mem r.ts hs

/-- Deduplicating a list sorted by timestamp yields strictly increasing
timestamps. -/
theorem dedupByTs_pairwise : ∀ (l : List OhlcvRec) (seen : List Nat),
    l.Pairwise (fun a b => a.ts ≤ b.ts) →
    (dedupByTs seen l).Pairwise (fun a b => a.ts < b.ts)
  | [], _, _ => by simp [dedupByTs]
  | r :: rest, seen, h => by
      have hr : ∀ b ∈ rest, r.ts ≤ b.ts :=
        fun b hb => List.rel_of_pairwise_cons h hb
      have hrest := h.tail
      by_cases hs : r.ts ∈ seen
      · rw [dedupByTs, if_pos hs]
        exact dedupByTs_pairwise rest seen hrest
      · rw [dedupByTs, if_neg hs]
        refine List.Pairwise.cons ?_ (dedupByTs_pairwise rest (r.ts :: seen) hrest)
        intro b hb
        have hmem := dedupByTs_mem rest (r.ts :: seen) b hb
        have hle := hr b hmem.1
        have hne : b.ts ≠ r.ts := fun he => hmem.2 (he ▸ List.mem_cons_self r.ts seen)
        omega

/-- Filtering the deduplicated list to one timestamp: empty when the
timestamp was already seen, the first matching input record otherwise. -/
theorem dedupByTs_filter_ts : ∀ (l : List OhlcvRec) (seen : List Nat) (t : Nat),
    (t ∈ seen → (dedupByTs seen l).filter (fun r => decide (r.ts = t)) = []) ∧
    (t ∉ seen → (dedupByTs seen l).filter (fun r => decide (r.ts = t)) =
      (l.filter (fun r => decide (r.ts = t))).take 1)
  | [], seen, t => by simp [dedupByTs]
  | r :: rest, seen, t => by
      by_cases hrs : r.ts ∈ seen
      · rw [dedupByTs, if_pos hrs]
        refine ⟨fun ht => (dedupByTs_filter_ts rest seen t).1 ht, fun ht => ?_⟩
        have hne : ¬r.ts = t := fun he => ht (he ▸ hrs)
        rw [(dedupByTs_filter_ts rest seen t).2 ht, List.filter_cons_of_neg]
        simpa using hne
      · rw [dedupByTs, if_neg hrs]
        constructor
        · intro ht
          have hne : ¬r.ts = t := fun he => hrs (he ▸ ht)
          rw [List.filter_cons_of_neg (by simpa using hne)]
          exact (dedupByTs_filter_ts rest (r.ts :: seen) t).1
            (List.mem_cons_of_mem r.ts ht)
        · intro ht
          by_cases he : r.ts = t
          · rw [List.filter_cons_of_pos (by simpa using he),
              List.filter_cons_of_pos (by simpa using he),
              (dedupByTs_filter_ts rest (r.ts :: seen) t).1 (he ▸ List.mem_cons_self r.ts seen)]
            simp
          · rw [List.filter_cons_of_neg (by simpa using he),
              List.filter_cons_of_neg (by simpa using he)]
            refine (dedupByTs_filter_ts rest (r.ts :: seen) t).2 ?_
            intro hmem'
            rcases List.mem_cons.mp hmem' with h1 | h1
            · exact he h1.symm
            · exact ht h1

theorem sortByTs_pairwise (l : List OhlcvRec) :
    (sortByTs l).Pairwise (fun a b => a.ts ≤ b.ts) := by
  have := List.sorted_mergeSort leTs_trans leTs_total l
  exact this.imp (by simp [leTs])

/-- The executable realization satisfies the sort contract: a mergesort
output is one of the permutations `sort_values` may produce. -/
theorem sortByTs_isSortByTsOutput (l : List OhlcvRec) :
    IsSortByTsOutput l (sortByTs l) :=
  ⟨List.mergeSort_perm l leTs, sortByTs_pairwise l⟩

/-- Every timestamp outside the seen set that occurs in the input still
occurs after deduplication. -/
theorem dedupByTs_ts_surjective : ∀ (l : List OhlcvRec) (seen : List Nat)
    (t : Nat), t ∉ seen → (∃ r ∈ l, r.ts = t) →
    ∃ x ∈ dedupByTs seen l, x.ts = t
  | [], _, _, _, hex => by simp at hex
  | r :: rest, seen, t, hts, hex => by
      by_cases hrs : r.ts ∈ seen
      · rw [dedupByTs, if_pos hrs]
        refine dedupByTs_ts_surjective rest seen t hts ?_
        obtain ⟨x, hx, hxt⟩ := hex
        rcases List.mem_cons.mp hx with h1 | h1
        · subst h1
          exact absurd (hxt ▸ hrs) hts
        · exact ⟨x, h1, hxt⟩
      · rw [dedupByTs, if_neg hrs]
        by_cases he : r.ts = t
        · exact ⟨r, List.mem_cons_self _ _, he⟩
        · obtain ⟨x, hx, hxt⟩ := hex
          rcases List.mem_cons.mp hx with h1 | h1
          · subst h1
            exact absurd hxt he
          · obtain ⟨y, hy, hyt⟩ := dedupByTs_ts_surjective rest (r.ts :: seen) t
              (by
                intro hm
                rcases List.mem_cons.mp hm with h2 | h2
                · exact he h2.symm
                · exact hts h2)
              ⟨x, h1, hxt⟩
            exact ⟨y, List.mem_cons_of_mem r hy, hyt⟩

/-- C4: amended claim.  Over the faithful sort contract (any
timestamp-sorted permutation of the concatenated phases, since
`sort_values` uses an unstable quicksort), the merged output has strictly
increasing timestamps — sorted ascending with exactly one record per
distinct timestamp; for each timestamp the surviving record is the first
record carrying it in the post-sort order; every retained record is one of
the input records, carrying the interval tag its phase assigned; and every
timestamp present in the input is represented in the output.  Which
record survives a tie between phases is NOT guaranteed (see the
counterexample). -/
theorem claim_C4_merge_sorted_dedup_amended :
    ∀ (allDfs : List (List OhlcvRec)) (sorted : List OhlcvRec),
      IsSortByTsOutput allDfs.flatten sorted →
      (dedupByTs [] sorted).Pairwise (fun a b => a.ts < b.ts) ∧
      (∀ t : Nat, (dedupByTs [] sorted).filter (fun r => decide (r.ts = t)) =
        (sorted.filter (fun r => decide (r.ts = t))).take 1) ∧
      (∀ r ∈ dedupByTs [] sorted, r ∈ allDfs.flatten) ∧
      (∀ t : Nat, (∃ r ∈ allDfs.flatten, r.ts = t) ↔
        ∃ x ∈ dedupByTs [] sorted, x.ts = t) := by
  intro allDfs sorted hsort
  obtain ⟨hperm, hsorted⟩ := hsort
  refine ⟨dedupByTs_pairwise sorted [] hsorted, ?_, ?_, ?_⟩
  · intro t
    exact (dedupByTs_filter_ts sorted [] t).2 (by simp)
  · intro r hr
    exact hperm.subset (dedupByTs_mem sorted [] r hr).1
  · intro t
    constructor
    · intro hex
      obtain ⟨r, hrmem, hrts⟩ := hex
      exact dedupByTs_ts_surjective sorted [] t (by simp)
        ⟨r, hperm.mem_iff.mpr hrmem, hrts⟩
    · intro hex
      obtain ⟨x, hxmem, hxts⟩ := hex
      exact ⟨x, hperm.subset (dedupByTs_mem sorted [] x hxmem).1, hxts⟩

/-- C4 counterexample: the claim as stated — the earlier phase wins an
exact-timestamp tie — is false on the code.  With Phase A contributing
record (ts 2, value 11, tag "1m") and Phase B record (ts 2, value 20, tag
"1H"), the order that places the Phase B record first is a permitted
output of the unstable sort, and keep-first deduplication then retains the
Phase B record: the merged output is exactly the Phase B record, which is
not a Phase A record. -/
theorem claim_C4_phase_B_can_win_tie :
    IsSortByTsOutput
        ([[⟨2, 11, "1m"⟩], [⟨2, 20, "1H"⟩]] : List (List OhlcvRec)).flatten
        [⟨2, 20, "1H"⟩, ⟨2, 11, "1m"⟩] ∧
    dedupByTs [] [⟨2, 20, "1H"⟩, ⟨2, 11, "1m"⟩] = [⟨2, 20, "1H"⟩] ∧
    (⟨2, 20, "1H"⟩ : OhlcvRec) ∉ [(⟨2, 11, "1m"⟩ : OhlcvRec)] := by
  refine ⟨⟨?_, ?_⟩, ?_, ?_⟩
  · decide
  · decide
  · decide
  · decide

/-- Witness for the amended C4 at a concrete sorted permutation with a
tied timestamp: deduplication keeps the first record of the tie in
post-sort order and the output is strictly increasing. -/
theorem claim_C4_merge_sorted_dedup_amended_witness :
    dedupByTs [] [⟨1, 10, "1m"⟩, ⟨2, 11, "1m"⟩, ⟨2, 20, "1H"⟩] =
      [⟨1, 10, "1m"⟩, ⟨2, 11, "1m"⟩] ∧
    (dedupByTs [] [⟨1, 10, "1m"⟩, ⟨2, 11, "1m"⟩, ⟨2, 20, "1H"⟩]).Pairwise
      (fun a b => a.ts < b.ts) := by
  refine ⟨by decide, ?_⟩
  exact (claim_C4_merge_sorted_dedup_amended
    [[⟨1, 10, "1m"⟩, ⟨2, 11, "1m"⟩], [⟨2, 20, "1H"⟩]]
    [⟨1, 10, "1m"⟩, ⟨2, 11, "1m"⟩, ⟨2, 20, "1H"⟩]
    ⟨by decide, by decide⟩).1

/-- C9: for a token created at T0 queried at T0 + 10 days, the
multi-resolution fetcher attempts exactly four requests — Phase A split
into minute-granularity windows at T0 + 12h, Phase B at hour granularity
over day 1 to day 8, Phase C at 12-hour granularity from day 8 to now —
and when every request yields a nonempty frame the status string is
"4/4 phases". -/
theorem claim_C9_ten_day_token_four_requests (T0 : Nat)
    (call : Nat → Nat → String → Option (List OhlcvRec))
    (h1 : ∃ l, call T0 (T0 + 43200) "1m" = some l ∧ l ≠ [])
    (h2 : ∃ l, call (T0 + 43200) (T0 + 86400) "1m" = some l ∧ l ≠ [])
    (h3 : ∃ l, call (T0 + 86400) (T0 + 691200) "1H" = some l ∧ l ≠ [])
    (h4 : ∃ l, call (T0 + 691200) (T0 + 864000) "12H" = some l ∧ l ≠ []) :
    (fetchMultiResolutionOhlcv call T0 (T0 + 864000)).requests =
      [⟨T0, T0 + 43200, "1m"⟩, ⟨T0 + 43200, T0 + 86400, "1m"⟩,
        ⟨T0 + 86400, T0 + 691200, "1H"⟩, ⟨T0 + 691200, T0 + 864000, "12H"⟩] ∧
    (fetchMultiResolutionOhlcv call T0 (T0 + 864000)).status = "4/4 phases" := by
  obtain ⟨l1, hc1, hl1⟩ := h1
  obtain ⟨l2, hc2, hl2⟩ := h2
  obtain ⟨l3, hc3, hl3⟩ := h3
  obtain ⟨l4, hc4, hl4⟩ := h4
  have hne1 : l1.isEmpty = false := by simpa [List.isEmpty_iff] using hl1
  have hne2 : l2.isEmpty = false := by simpa [List.isEmpty_iff] using hl2
  have hne3 : l3.isEmpty = false := by simpa [List.isEmpty_iff] using hl3
  have hne4 : l4.isEmpty = false := by simpa [List.isEmpty_iff] using hl4
  have c1 : T0 + 864000 > T0 := by omega
  have c2 : T0 + 864000 > T0 + 12 * 3600 := by omega
  have c3 : T0 + 864000 > T0 + 24 * 3600 := by omega
  have c4 : T0 + 864000 > T0 + 8 * (24 * 3600) := by omega
  have m1 : min (T0 + 12 * 3600) (T0 + 864000) = T0 + 43200 := by omega
  have m2 : min (T0 + 24 * 3600) (T0 + 864000) = T0 + 86400 := by omega
  have m3 : min (T0 + 8 * (24 * 3600)) (T0 + 864000) = T0 + 691200 := by omega
  have e1 : T0 + 12 * 3600 = T0 + 43200 := by omega
  have e2 : T0 + 24 * 3600 = T0 + 86400 := by omega
  have e3 : T0 + 8 * (24 * 3600) = T0 + 691200 := by omega
  constructor
  · simp [fetchMultiResolutionOhlcv, attemptPhase, c1, c2, c3, c4, m1, m2, m3,
      e1, e2, e3, hc1, hc2, hc3, hc4, hne1, hne2, hne3, hne4]
  · simp [fetchMultiResolutionOhlcv, attemptPhase, c1, c2, c3, c4, m1, m2, m3,
      e1, e2, e3, hc1, hc2, hc3, hc4, hne1, hne2, hne3, hne4, phaseStatus]
    rfl

/-- Witness for C9: a server returning one record per window yields the
four expected requests and the "4/4 phases" status. -/
theorem claim_C9_ten_day_token_four_requests_witness :
    (fetchMultiResolutionOhlcv (fun s _ i => some [⟨s, 77, i⟩]) 0 864000).requests =
      [⟨0, 43200, "1m"⟩, ⟨43200, 86400, "1m"⟩,
        ⟨86400, 691200, "1H"⟩, ⟨691200, 864000, "12H"⟩] ∧
    (fetchMultiResolutionOhlcv (fun s _ i => some [⟨s, 77, i⟩]) 0 864000).status =
      "4/4 phases" := by
  have h := claim_C9_ten_day_token_four_requests 0 (fun s _ i => some [⟨s, 77, i⟩])
    ⟨[⟨0, 77, "1m"⟩], rfl, by decide⟩
    ⟨[⟨0 + 43200, 77, "1m"⟩], rfl, by decide⟩
    ⟨[⟨0 + 86400, 77, "1H"⟩], rfl, by decide⟩
    ⟨[⟨0 + 691200, 77, "12H"⟩], rfl, by decide⟩
  simpa using h

end SolanaScraping
